import Mathlib

/-!
Verification development for the keras-nlp classifier slice:
`keras_nlp/models/bert/bert_classifier.py` (the `BertClassifier` task head)
together with the behaviour exercised by
`keras_nlp/models/f_net/f_net_classifier_test.py`.

The embedding is shallow: Python dictionaries become association lists,
the Keras functional graph built in `BertClassifier.__init__` becomes a
symbolic tensor expression, the compile state becomes an explicit record,
and the Python object heap (needed to reason about `copy.deepcopy` in the
`presets` class property) becomes an explicit address-indexed store.
Components of the repository that are referenced but whose source is not
part of this slice (the preset tables, `Task.from_preset`, the base
`Task.get_config`, `bert_kernel_initializer`) are modelled from the
specification and marked as such in their doc comments.
-/

/-! ## Python dictionaries as association lists -/

/-- Lookup in a Python dict modelled as an association list. -/
def dictLookup {α : Type} : List (String × α) → String → Option α
  | [], _ => none
  | (k, v) :: rest, key => if k = key then some v else dictLookup rest key

/-- `d[k] = v` on a Python dict: overwrite in place when the key exists
(Python preserves first insertion position), append otherwise. -/
def dictInsert {α : Type} : List (String × α) → String → α → List (String × α)
  | [], key, v => [(key, v)]
  | (k, w) :: rest, key, v =>
    if k = key then (k, v) :: rest else (k, w) :: dictInsert rest key v

/-- `d1.update(d2)` / `{**d1, **d2}`: fold the second dict into the first,
later assignments winning. -/
def dictUpdate {α : Type} (d1 d2 : List (String × α)) : List (String × α) :=
  d2.foldl (fun acc kv => dictInsert acc kv.1 kv.2) d1

/-- The key list of a dict. -/
def dictKeys {α : Type} (d : List (String × α)) : List String := d.map Prod.fst

/-- Key membership as a Bool, mirroring `k in d`. -/
def dictHasKey {α : Type} (d : List (String × α)) (key : String) : Bool :=
  (dictLookup d key).isSome


/-! ## Configuration values -/

/-- A value stored in a Keras config dict. -/
inductive ConfigVal where
  | natV : ℕ → ConfigVal
  | ratV : ℚ → ConfigVal
  | strV : String → ConfigVal
  | boolV : Bool → ConfigVal
deriving DecidableEq, Repr

/-- A Keras config dict. -/
def Config : Type := List (String × ConfigVal)

/-! ## Layers and the symbolic functional graph

`BertClassifier.__init__` builds a Keras functional graph:
`inputs = backbone.input`, `pooled = backbone(inputs)["pooled_output"]`,
`pooled = Dropout(dropout)(pooled)`,
`outputs = Dense(num_classes, kernel_initializer=..., name="logits")(pooled)`.
We embed that graph as a symbolic tensor expression. -/

/-- A Keras weight-init scheme (only the shapes of data the claims need). -/
inductive InitScheme where
  | truncatedNormal (stddev : ℚ) : InitScheme
  | glorotUniform : InitScheme
deriving DecidableEq, Repr

/-- Modelled from the spec: `bert_kernel_initializer` (defined in
`bert_backbone.py`, not part of this source slice) is described by the spec
as "a fixed (truncated-normal, std=0.02) initialization scheme". -/
def bertKernelInit : InitScheme := InitScheme.truncatedNormal 0.02

/-- The symbolic tensor graph built by the classifier constructor. -/
inductive SymTensor where
  | input : SymTensor
  | backbonePooled : SymTensor → SymTensor
  | dropout (rate : ℚ) (x : SymTensor) : SymTensor
  | dense (units : ℕ) (kernelInit : InitScheme) (layerName : String) (x : SymTensor) : SymTensor
deriving DecidableEq, Repr

/-- Static shape semantics of the symbolic graph: `hiddenDim` is the width
of the backbone pooled output, `seqLen` the token-sequence length, `batch`
the batch size. A `Dense` layer acts on the last axis, replacing it with its
unit count; `Dropout` preserves shape. -/
def shapeOf (hiddenDim seqLen batch : ℕ) : SymTensor → List ℕ
  | .input => [batch, seqLen]
  | .backbonePooled _ => [batch, hiddenDim]
  | .dropout _ x => shapeOf hiddenDim seqLen batch x
  | .dense units _ _ x => (shapeOf hiddenDim seqLen batch x).dropLast ++ [units]

/-! ## Collaborator contracts -/

/-- One already-preprocessed example: the tensors the backbone expects. -/
structure EncodedInput where
  token_ids : List ℤ
  segment_ids : List ℤ
  padding_mask : List ℤ
deriving DecidableEq, Repr

/-- The backbone collaborator: exposes an input and a pooled-output slot.
`pooled` is its (externally owned) forward function for a single example,
producing the fixed-size pooled vector of width `hiddenDim`. -/
structure Backbone where
  hiddenDim : ℕ
  seqLen : ℕ
  pooled : EncodedInput → List ℚ

/-- The preprocessor collaborator: converts one raw string into the
tensors the backbone expects. -/
structure Preprocessor where
  encode : String → EncodedInput

/-! ## Compile state -/

/-- The loss passed to `compile`. -/
inductive LossSpec where
  | sparseCategoricalCrossentropy (from_logits : Bool)
  | meanSquaredError
deriving DecidableEq, Repr

/-- The optimizer passed to `compile`. -/
inductive OptimizerSpec where
  | adam (learning_rate : ℚ)
  | rmsprop (learning_rate : ℚ)
deriving DecidableEq, Repr

/-- The metric passed to `compile`. -/
inductive MetricSpec where
  | sparseCategoricalAccuracy
  | sparseTopKCategoricalAccuracy
deriving DecidableEq, Repr

/-- The training configuration established by `Model.compile`. -/
structure CompileState where
  loss : LossSpec
  optimizer : OptimizerSpec
  metrics : MetricSpec
  jit_compile : Bool
deriving DecidableEq, Repr

/-! ## The classifier -/

/-- The `BertClassifier` object after `__init__` has run: the functional
graph, the saved constructor arguments, the `include_preprocessing` flag
passed to the parent constructor, the head weights (the kernel is sampled
from the initializer; sampling is externalized, so the sampled kernel `denseW`
and bias `denseB` appear as data), and the current compile state. -/
structure BertClassifier where
  backbone : Backbone
  preprocessor : Option Preprocessor
  num_classes : ℕ
  dropout : ℚ
  includePreprocessing : Bool
  graph : SymTensor
  denseW : List (List ℚ)
  denseB : List ℚ
  compileState : CompileState

/-- `Model.compile`: replaces the training configuration wholesale. -/
def compileModel (c : BertClassifier) (loss : LossSpec) (opt : OptimizerSpec)
    (metrics : MetricSpec) (jit : Bool) : BertClassifier :=
  { c with compileState := ⟨loss, opt, metrics, jit⟩ }

/-- The graph built inside `BertClassifier.__init__`:
dropout applied to the backbone pooled output, then the dense projection
named "logits" with `num_classes` units. -/
def buildGraph (num_classes : ℕ) (dropout : ℚ) : SymTensor :=
  SymTensor.dense num_classes bertKernelInit "logits"
    (SymTensor.dropout dropout (SymTensor.backbonePooled SymTensor.input))

/-- `BertClassifier.__init__`: builds the graph, passes
`include_preprocessing = (preprocessor is not None)` to the parent
constructor, stores the constructor arguments on `self`, and performs the
default compilation (sparse categorical cross-entropy from logits, Adam at
learning rate 5e-5, sparse categorical accuracy, `jit_compile` from
`is_xla_compatible(self)` which is modelled as the argument `xla`). -/
def mkBertClassifier (backbone : Backbone) (num_classes : ℕ) (dropout : ℚ)
    (preprocessor : Option Preprocessor) (denseW : List (List ℚ)) (denseB : List ℚ)
    (xla : Bool) : BertClassifier :=
  { backbone := backbone
    preprocessor := preprocessor
    num_classes := num_classes
    dropout := dropout
    includePreprocessing := preprocessor.isSome
    graph := buildGraph num_classes dropout
    denseW := denseW
    denseB := denseB
    compileState :=
      { loss := LossSpec.sparseCategoricalCrossentropy true
        optimizer := OptimizerSpec.adam (5 / 100000)
        metrics := MetricSpec.sparseCategoricalAccuracy
        jit_compile := xla } }

/-- `BertClassifier.__init__` with the two delegated Keras layer
constructors (`keras.layers.Dropout`, `keras.layers.Dense`) made explicit
as fallible calls, mirroring the order in which the source invokes them.
The classifier source itself contains no `raise` and no validation, so the
only failure paths are the delegated calls. -/
def mkBertClassifierChecked (mkDropoutLayer : ℚ → Except String Unit)
    (mkDenseLayer : ℕ → Except String Unit)
    (backbone : Backbone) (num_classes : ℕ) (dropout : ℚ)
    (preprocessor : Option Preprocessor) (denseW : List (List ℚ)) (denseB : List ℚ)
    (xla : Bool) : Except String BertClassifier := do
  _ ← mkDropoutLayer dropout
  _ ← mkDenseLayer num_classes
  pure (mkBertClassifier backbone num_classes dropout preprocessor denseW denseB xla)

/-- `BertClassifier.get_config`: `config = super().get_config()` followed by
`config.update({"num_classes": ..., "dropout": ...})`. The base task config
(computed by the parent class, outside this slice) enters as `base`. -/
def getConfig (c : BertClassifier) (base : Config) : Config :=
  dictUpdate base
    [("num_classes", ConfigVal.natV c.num_classes), ("dropout", ConfigVal.ratV c.dropout)]

/-- Modelled from the spec: the inherited `from_config`-style reconstruction
("reconstructing a new instance from this config (plus the same backbone and
preprocessor) reproduces an architecturally identical model"). It reads
`num_classes` and `dropout` out of the config and calls the constructor. -/
def fromConfig (config : Config) (backbone : Backbone) (preprocessor : Option Preprocessor)
    (denseW : List (List ℚ)) (denseB : List ℚ) (xla : Bool) : Option BertClassifier :=
  match dictLookup config "num_classes", dictLookup config "dropout" with
  | some (ConfigVal.natV n), some (ConfigVal.ratV r) =>
    some (mkBertClassifier backbone n r preprocessor denseW denseB xla)
  | _, _ => none

/-! ## Inference semantics -/

/-- Dot product over rationals. -/
def dotList (xs ys : List ℚ) : ℚ := (List.zipWith (fun a b => a * b) xs ys).sum

/-- A dense (affine) layer applied to one vector: one output per kernel row. -/
def denseApply (W : List (List ℚ)) (b : List ℚ) (x : List ℚ) : List ℚ :=
  List.zipWith (fun row bi => dotList row x + bi) W b

/-- Inference forward pass for one preprocessed example: dropout is the
identity at inference, so the output is the dense head applied to the
backbone pooled vector. -/
def predictOne (c : BertClassifier) (e : EncodedInput) : List ℚ :=
  denseApply c.denseW c.denseB (c.backbone.pooled e)

/-- Inference on a preprocessed batch. -/
def predictBatch (c : BertClassifier) (batch : List EncodedInput) : List (List ℚ) :=
  batch.map (predictOne c)

/-! ## Persistence (modelled from the spec) -/

/-- The two persistence formats exercised by the tests
(`save_format="tf"` and `save_format="keras_v3"`). -/
inductive SaveFormat where
  | tf
  | keras_v3
deriving DecidableEq, Repr

/-- Modelled from the spec: the host framework's saved-model artifact.
"Persisted state: delegated entirely to the host framework's save/load
mechanisms"; it records the registered class, the config produced by
`get_config`, and all weights (backbone and head). -/
structure SavedModel where
  format : SaveFormat
  classTag : String
  config : Config
  backbone : Backbone
  preprocessor : Option Preprocessor
  denseW : List (List ℚ)
  denseB : List ℚ
  xla : Bool

/-- Modelled from the spec: `model.save(path, save_format=...)` serializes
the class tag, the `get_config` output and the weights. -/
def saveModel (fmt : SaveFormat) (c : BertClassifier) (base : Config) (xla : Bool) : SavedModel :=
  { format := fmt
    classTag := "BertClassifier"
    config := getConfig c base
    backbone := c.backbone
    preprocessor := c.preprocessor
    denseW := c.denseW
    denseB := c.denseB
    xla := xla }

/-- Modelled from the spec: `keras.models.load_model` re-instantiates the
registered class from its config and restores the saved weights. -/
def loadModel (s : SavedModel) : Option BertClassifier :=
  if s.classTag = "BertClassifier" then
    fromConfig s.config s.backbone s.preprocessor s.denseW s.denseB s.xla
  else none

/-! ## Preset lookup (modelled from the spec) -/

/-- A preset lookup failure. -/
inductive PresetError where
  | keyError (name : String)
deriving DecidableEq, Repr

/-- Modelled from the spec: `from_preset(name)` consults the merged preset
table; "Unknown preset identifier: fails with a lookup/key error at
reconstruction time; no silent fallback." -/
def fromPreset {α : Type} (presetsTable : List (String × α)) (name : String) :
    Except PresetError α :=
  match dictLookup presetsTable name with
  | none => Except.error (PresetError.keyError name)
  | some cfg => Except.ok cfg

/-! ## A Python object heap

The `presets` class property runs
`copy.deepcopy({**backbone_presets, **classifier_presets})`.
The frame claim about it (mutation of a returned copy never affects the
registry) is a statement about Python object aliasing, so we model the
Python heap explicitly: a heap is a list of stored values addressed by
position, a dict stores addresses of its values, `deepcopy` reads the value
tree out of the heap and re-allocates it at fresh addresses. -/

/-- A value stored at one heap address: a string, an integer, or a dict
whose values are heap addresses. -/
inductive PVal where
  | strV : String → PVal
  | intV : ℤ → PVal
  | dictV : List (String × ℕ) → PVal
deriving DecidableEq, Repr

mutual
/-- The pure value tree denoted by a heap object. -/
inductive PTree where
  | strT : String → PTree
  | intT : ℤ → PTree
  | dictT : PDict → PTree
/-- The entries of a pure dict value, in insertion order. -/
inductive PDict where
  | nil : PDict
  | cons : String → PTree → PDict → PDict
end

/-- The keys of a pure dict value. -/
def pdKeys : PDict → List String
  | PDict.nil => []
  | PDict.cons k _ rest => k :: pdKeys rest

/-- Entry lookup in a pure dict value. -/
def pdLookup : PDict → String → Option PTree
  | PDict.nil, _ => none
  | PDict.cons k t rest, key => if k = key then some t else pdLookup rest key

mutual
/-- Read the value tree rooted at address `a` out of heap `h`; `fuel`
bounds the depth (the registry is acyclic, so enough fuel always exists). -/
def readTree (h : List PVal) : ℕ → ℕ → Option PTree
  | 0, _ => none
  | fuel + 1, a =>
    match h[a]? with
    | some (PVal.strV s) => some (PTree.strT s)
    | some (PVal.intV n) => some (PTree.intT n)
    | some (PVal.dictV kvs) =>
      match readTreeList h fuel kvs with
      | some pd => some (PTree.dictT pd)
      | none => none
    | none => none
termination_by fuel a => (fuel, 0)
/-- Read each entry of a dict's address list into a pure dict value. -/
def readTreeList (h : List PVal) : ℕ → List (String × ℕ) → Option PDict
  | _, [] => some PDict.nil
  | fuel, (k, b) :: rest =>
    match readTree h fuel b, readTreeList h fuel rest with
    | some t, some pd => some (PDict.cons k t pd)
    | _, _ => none
termination_by fuel l => (fuel, l.length + 1)
end

mutual
/-- Allocate a pure value tree at fresh addresses (the second half of
`copy.deepcopy`): returns the extended heap and the root address. -/
def allocTree (h : List PVal) : PTree → List PVal × ℕ
  | PTree.strT s => (h ++ [PVal.strV s], h.length)
  | PTree.intT n => (h ++ [PVal.intV n], h.length)
  | PTree.dictT pd =>
    let p := allocDict h pd
    (p.1 ++ [PVal.dictV p.2], p.1.length)
/-- Allocate every entry of a dict value, returning the address list. -/
def allocDict (h : List PVal) : PDict → List PVal × List (String × ℕ)
  | PDict.nil => (h, [])
  | PDict.cons k t rest =>
    let p := allocTree h t
    let q := allocDict p.1 rest
    (q.1, (k, p.2) :: q.2)
end

/-- Heap well-formedness as a computation: every stored dict points only
at existing addresses. -/
def heapWFb (h : List PVal) : Bool :=
  h.all fun v =>
    match v with
    | PVal.dictV kvs => kvs.all fun kv => kv.2 < h.length
    | _ => true

/-- Every dict stored below address `n` points only below `n`. -/
def closedBelow (h : List PVal) (n : ℕ) : Prop :=
  ∀ a kvs, a < n → h[a]? = some (PVal.dictV kvs) → ∀ kv ∈ kvs, kv.2 < n

/-- Every dict stored at address `n` or above points only at `n` or above. -/
def regionClosed (h : List PVal) (n : ℕ) : Prop :=
  ∀ a kvs, n ≤ a → h[a]? = some (PVal.dictV kvs) → ∀ kv ∈ kvs, n ≤ kv.2

/-- Addresses reachable from a root by following dict entries. -/
inductive reach (h : List PVal) (root : ℕ) : ℕ → Prop where
  | refl : reach h root root
  | step {b c : ℕ} {kvs : List (String × ℕ)} {k : String} :
      reach h root b → h[b]? = some (PVal.dictV kvs) → (k, c) ∈ kvs → reach h root c

/-- The observable content of one `presets` call: the pure value tree of
`{**backbone_presets, **classifier_presets}` read out of the heap, where
`rb` and `rc` are the addresses of the two preset tables. -/
def presetsView (h : List PVal) (rb rc fuel : ℕ) : Option PTree :=
  match h[rb]?, h[rc]? with
  | some (PVal.dictV db), some (PVal.dictV dc) =>
    match readTreeList h fuel (dictUpdate db dc) with
    | some pd => some (PTree.dictT pd)
    | none => none
  | _, _ => none

/-- One call of the `presets` class property:
`copy.deepcopy({**backbone_presets, **classifier_presets})` — merge the two
tables, read the merged value tree, and allocate a deep copy of it at fresh
addresses. Returns the extended heap and the address of the copy. -/
def presetsCall (h : List PVal) (rb rc fuel : ℕ) : Option (List PVal × ℕ) :=
  match presetsView h rb rc fuel with
  | some t => some (allocTree h t)
  | none => none

theorem dictLookup_insert_self {α : Type} (d : List (String × α)) (k : String) (v : α) :
    dictLookup (dictInsert d k v) k = some v := by
  induction d with
  | nil => simp [dictInsert, dictLookup]
  | cons hd tl ih =>
    cases hd with
    | mk k0 v0 =>
      by_cases h : k0 = k
      · simp [dictInsert, dictLookup, h]
      · simp [dictInsert, dictLookup, h, ih]

theorem dictLookup_insert_other {α : Type} (d : List (String × α)) (k k' : String) (v : α)
    (hne : k ≠ k') : dictLookup (dictInsert d k v) k' = dictLookup d k' := by
  induction d with
  | nil => simp [dictInsert, dictLookup, hne]
  | cons hd tl ih =>
    cases hd with
    | mk k0 v0 =>
      by_cases h : k0 = k
      · subst h
        simp [dictInsert, dictLookup, hne]
      · simp [dictInsert, dictLookup, h, ih]

theorem dictKeys_insert {α : Type} (d : List (String × α)) (k : String) (v : α) :
    ∀ k', k' ∈ dictKeys (dictInsert d k v) ↔ k' ∈ dictKeys d ∨ k' = k := by
  intro k'
  induction d with
  | nil => simp [dictInsert, dictKeys]
  | cons hd tl ih =>
    cases hd with
    | mk k0 v0 =>
      by_cases h : k0 = k
      · subst h
        simp [dictInsert, dictKeys]
        tauto
      · simp [dictInsert, dictKeys, h] at ih ⊢
        tauto

/-- Membership in the keys of `{**d1, **d2}` is membership in either dict. -/
theorem dictKeys_update_mem {α : Type} (d1 d2 : List (String × α)) :
    ∀ k, k ∈ dictKeys (dictUpdate d1 d2) ↔ k ∈ dictKeys d1 ∨ k ∈ dictKeys d2 := by
  intro k
  induction d2 generalizing d1 with
  | nil => simp [dictUpdate, dictKeys]
  | cons hd tl ih =>
    cases hd with
    | mk k0 v0 =>
      simp only [dictUpdate, List.foldl_cons] at ih ⊢
      rw [ih (dictInsert d1 k0 v0)]
      rw [dictKeys_insert]
      simp [dictKeys]
      tauto

/-- If a key is bound somewhere in the dict, it appears among the keys. -/
theorem dictLookup_some_mem_keys {α : Type} (d : List (String × α)) (k : String) (v : α)
    (h : dictLookup d k = some v) : k ∈ dictKeys d := by
  induction d with
  | nil => simp [dictLookup] at h
  | cons hd tl ih =>
    cases hd with
    | mk k0 v0 =>
      simp only [dictLookup] at h
      by_cases h0 : k0 = k
      · subst h0; simp [dictKeys]
      · simp only [if_neg h0] at h
        simp [dictKeys] at ih ⊢
        right
        simpa [dictKeys] using ih h

/-- Folding in a dict that does not bind `k` leaves the lookup of `k` alone. -/
theorem dictLookup_update_of_not_mem {α : Type} (d1 d2 : List (String × α)) (k : String)
    (h : dictLookup d2 k = none) :
    dictLookup (dictUpdate d1 d2) k = dictLookup d1 k := by
  induction d2 generalizing d1 with
  | nil => simp [dictUpdate]
  | cons hd tl ih =>
    cases hd with
    | mk k0 v0 =>
      simp only [dictLookup] at h
      by_cases h0 : k0 = k
      · simp [h0] at h
      · simp only [if_neg h0] at h
        simp only [dictUpdate, List.foldl_cons] at ih ⊢
        rw [ih (dictInsert d1 k0 v0) h]
        exact dictLookup_insert_other d1 k0 k v0 h0

/-- In `{**d1, **d2}`, a key bound in `d2` is looked up in `d2`
(the second dict takes precedence), provided `d2` binds it only once. -/
theorem dictLookup_update_of_right {α : Type} (d1 d2 : List (String × α)) (k : String) (v : α)
    (hnd : (dictKeys d2).Nodup) (hk : dictLookup d2 k = some v) :
    dictLookup (dictUpdate d1 d2) k = some v := by
  induction d2 generalizing d1 with
  | nil => simp [dictLookup] at hk
  | cons hd tl ih =>
    cases hd with
    | mk k0 v0 =>
      simp only [dictKeys, List.map_cons, List.nodup_cons] at hnd
      simp only [dictLookup] at hk
      by_cases h : k0 = k
      · subst h
        simp only [if_pos rfl] at hk
        cases hk
        simp only [dictUpdate, List.foldl_cons]
        have hnotin : dictLookup tl k0 = none := by
          cases hlk : dictLookup tl k0 with
          | none => rfl
          | some w =>
            exact absurd (dictLookup_some_mem_keys tl k0 w hlk) (by simpa [dictKeys] using hnd.1)
        calc dictLookup (dictUpdate (dictInsert d1 k0 v) tl) k0
            = dictLookup (dictInsert d1 k0 v) k0 :=
              dictLookup_update_of_not_mem (dictInsert d1 k0 v) tl k0 hnotin
          _ = some v := dictLookup_insert_self d1 k0 v
      · simp only [if_neg h] at hk
        simp only [dictUpdate, List.foldl_cons]
        exact ih (dictInsert d1 k0 v0) hnd.2 hk

theorem heapWFb_closedBelow (h : List PVal) (hwf : heapWFb h = true) :
    closedBelow h h.length := by
  intro a kvs ha hget kv hkv
  have hmem : PVal.dictV kvs ∈ h := by
    have := List.getElem?_eq_some_iff.mp hget
    obtain ⟨hlt, heq⟩ := this
    exact heq ▸ List.getElem_mem hlt
  have := List.all_eq_true.mp hwf _ hmem
  simp only [] at this
  have := List.all_eq_true.mp this _ hkv
  simpa using this

mutual
theorem allocTree_append (h : List PVal) (t : PTree) :
    ∃ ext, (allocTree h t).1 = h ++ ext := by
  match t with
  | PTree.strT s => exact ⟨[PVal.strV s], rfl⟩
  | PTree.intT n => exact ⟨[PVal.intV n], rfl⟩
  | PTree.dictT pd =>
    obtain ⟨e, he⟩ := allocDict_append h pd
    exact ⟨e ++ [PVal.dictV (allocDict h pd).2], by simp [allocTree, he]⟩
theorem allocDict_append (h : List PVal) (pd : PDict) :
    ∃ ext, (allocDict h pd).1 = h ++ ext := by
  match pd with
  | PDict.nil => exact ⟨[], by simp [allocDict]⟩
  | PDict.cons k t rest =>
    obtain ⟨e1, he1⟩ := allocTree_append h t
    obtain ⟨e2, he2⟩ := allocDict_append (allocTree h t).1 rest
    rw [he1] at he2
    exact ⟨e1 ++ e2, by simp [allocDict, he1, he2]⟩
end

theorem allocTree_len_le (h : List PVal) (t : PTree) :
    h.length ≤ (allocTree h t).1.length := by
  obtain ⟨e, he⟩ := allocTree_append h t
  simp [he]

theorem allocDict_len_le (h : List PVal) (pd : PDict) :
    h.length ≤ (allocDict h pd).1.length := by
  obtain ⟨e, he⟩ := allocDict_append h pd
  simp [he]

mutual
theorem allocTree_root_ge (h : List PVal) (t : PTree) :
    h.length ≤ (allocTree h t).2 ∧ (allocTree h t).2 < (allocTree h t).1.length := by
  match t with
  | PTree.strT s => simp [allocTree]
  | PTree.intT n => simp [allocTree]
  | PTree.dictT pd =>
    have hlen := allocDict_len_le h pd
    simp only [allocTree]
    constructor
    · exact hlen
    · simp
theorem allocDict_addrs_ge (h : List PVal) (pd : PDict) :
    ∀ kv ∈ (allocDict h pd).2, h.length ≤ kv.2 ∧ kv.2 < (allocDict h pd).1.length := by
  match pd with
  | PDict.nil => intro kv hkv; simp [allocDict] at hkv
  | PDict.cons k t rest =>
    intro kv hkv
    have hroot := allocTree_root_ge h t
    have hrest := allocDict_addrs_ge (allocTree h t).1 rest
    have hlen1 := allocTree_len_le h t
    have hlen2 := allocDict_len_le (allocTree h t).1 rest
    simp only [allocDict, List.mem_cons] at hkv
    rcases hkv with hkv | hkv
    · subst hkv
      refine ⟨hroot.1, lt_of_lt_of_le hroot.2 ?_⟩
      simpa [allocDict] using hlen2
    · have := hrest kv hkv
      exact ⟨le_trans hlen1 this.1, by simpa [allocDict] using this.2⟩
end

theorem concat_getElem_cases (p : List PVal) (x : PVal) (a : ℕ) (y : PVal)
    (h : (p ++ [x])[a]? = some y) :
    (a < p.length ∧ p[a]? = some y) ∨ (a = p.length ∧ y = x) := by
  rcases Nat.lt_trichotomy a p.length with hlt | heq | hgt
  · left
    refine ⟨hlt, ?_⟩
    rw [List.getElem?_append_left hlt] at h
    exact h
  · right
    subst heq
    rw [List.getElem?_concat_length] at h
    exact ⟨rfl, by injection h with h2; exact h2.symm⟩
  · exfalso
    have hlen : (p ++ [x]).length ≤ a := by simp; omega
    rw [List.getElem?_eq_none hlen] at h
    exact Option.noConfusion h

mutual
theorem allocTree_regionClosed (h : List PVal) (t : PTree) (n : ℕ) (hn : n ≤ h.length)
    (hr : regionClosed h n) : regionClosed (allocTree h t).1 n := by
  match t with
  | PTree.strT s =>
    intro a kvs ha hget kv hkv
    rcases concat_getElem_cases h (PVal.strV s) a (PVal.dictV kvs) hget with ⟨_, hg⟩ | ⟨_, hx⟩
    · exact hr a kvs ha hg kv hkv
    · exact PVal.noConfusion hx
  | PTree.intT m =>
    intro a kvs ha hget kv hkv
    rcases concat_getElem_cases h (PVal.intV m) a (PVal.dictV kvs) hget with ⟨_, hg⟩ | ⟨_, hx⟩
    · exact hr a kvs ha hg kv hkv
    · exact PVal.noConfusion hx
  | PTree.dictT pd =>
    have hrec := allocDict_regionClosed h pd n hn hr
    intro a kvs ha hget kv hkv
    rcases concat_getElem_cases (allocDict h pd).1 (PVal.dictV (allocDict h pd).2) a
        (PVal.dictV kvs) hget with ⟨_, hg⟩ | ⟨_, hx⟩
    · exact hrec a kvs ha hg kv hkv
    · have hkvs : kvs = (allocDict h pd).2 := by injection hx
      subst hkvs
      exact le_trans hn (allocDict_addrs_ge h pd kv hkv).1
theorem allocDict_regionClosed (h : List PVal) (pd : PDict) (n : ℕ) (hn : n ≤ h.length)
    (hr : regionClosed h n) : regionClosed (allocDict h pd).1 n := by
  match pd with
  | PDict.nil => exact hr
  | PDict.cons k t rest =>
    have h1 := allocTree_regionClosed h t n hn hr
    exact allocDict_regionClosed (allocTree h t).1 rest n
      (le_trans hn (allocTree_len_le h t)) h1
end

mutual
theorem readTree_agree (h1 h2 : List PVal) (n : ℕ) (hcl : closedBelow h1 n)
    (hag : ∀ j, j < n → h2[j]? = h1[j]?) (fuel a : ℕ) (ha : a < n) :
    readTree h2 fuel a = readTree h1 fuel a := by
  match fuel with
  | 0 => simp [readTree]
  | fuel + 1 =>
    have hja := hag a ha
    simp only [readTree]
    rw [hja]
    cases hg : h1[a]? with
    | none => rfl
    | some v =>
      cases v with
      | strV s => rfl
      | intV m => rfl
      | dictV kvs =>
        have hkvs : ∀ kv ∈ kvs, kv.2 < n := fun kv hkv => hcl a kvs ha hg kv hkv
        have hrw := readTreeList_agree h1 h2 n hcl hag fuel kvs hkvs
        simp [hrw]
termination_by (fuel, 0)
theorem readTreeList_agree (h1 h2 : List PVal) (n : ℕ) (hcl : closedBelow h1 n)
    (hag : ∀ j, j < n → h2[j]? = h1[j]?) (fuel : ℕ) (l : List (String × ℕ))
    (hl : ∀ kv ∈ l, kv.2 < n) :
    readTreeList h2 fuel l = readTreeList h1 fuel l := by
  match l with
  | [] => simp [readTreeList]
  | (k, b) :: rest =>
    simp only [readTreeList]
    rw [readTree_agree h1 h2 n hcl hag fuel b (hl (k, b) (by simp))]
    rw [readTreeList_agree h1 h2 n hcl hag fuel rest (fun kv hkv => hl kv (by simp [hkv]))]
termination_by (fuel, l.length + 1)
end

theorem reach_ge (h : List PVal) (n root : ℕ) (hroot : n ≤ root)
    (hrc : regionClosed h n) : ∀ a, reach h root a → n ≤ a := by
  intro a hr
  induction hr with
  | refl => exact hroot
  | step hr hget hmem ih => exact hrc _ _ ih hget _ hmem

theorem dictInsert_mem {α : Type} (d : List (String × α)) (k : String) (v : α) :
    ∀ kv ∈ dictInsert d k v, kv ∈ d ∨ kv = (k, v) := by
  induction d with
  | nil => intro kv hkv; simp [dictInsert] at hkv; right; exact hkv
  | cons hd tl ih =>
    cases hd with
    | mk k0 v0 =>
      intro kv hkv
      by_cases h : k0 = k
      · simp [dictInsert, h] at hkv
        rcases hkv with hkv | hkv
        · subst h; right; simp [hkv]
        · left; simp [hkv]
      · simp [dictInsert, h] at hkv
        rcases hkv with hkv | hkv
        · left; simp [hkv]
        · rcases ih kv hkv with hin | heq
          · left; simp [hin]
          · right; exact heq

theorem dictUpdate_mem {α : Type} (d1 d2 : List (String × α)) :
    ∀ kv ∈ dictUpdate d1 d2, kv ∈ d1 ∨ kv ∈ d2 := by
  induction d2 generalizing d1 with
  | nil => intro kv hkv; left; exact hkv
  | cons hd tl ih =>
    cases hd with
    | mk k0 v0 =>
      intro kv hkv
      simp only [dictUpdate, List.foldl_cons] at hkv
      rcases ih (dictInsert d1 k0 v0) kv hkv with hin | hin
      · rcases dictInsert_mem d1 k0 v0 kv hin with h | h
        · left; exact h
        · right; simp [h]
      · right; simp [hin]

/-- Reading a dict entry list preserves its keys. -/
theorem readTreeList_keys (h : List PVal) (fuel : ℕ) (l : List (String × ℕ)) (pd : PDict)
    (hr : readTreeList h fuel l = some pd) : pdKeys pd = l.map Prod.fst := by
  induction l generalizing pd with
  | nil =>
    simp [readTreeList] at hr
    subst hr
    simp [pdKeys]
  | cons hd tl ih =>
    cases hd with
    | mk k b =>
      simp only [readTreeList] at hr
      cases ht : readTree h fuel b with
      | none => rw [ht] at hr; exact Option.noConfusion hr
      | some t =>
        cases hl : readTreeList h fuel tl with
        | none => rw [ht, hl] at hr; exact Option.noConfusion hr
        | some pd0 =>
          rw [ht, hl] at hr
          injection hr with hr
          subst hr
          simp [pdKeys, ih pd0 hl]

/-- Reading a dict entry list sends each bound address to its read tree. -/
theorem readTreeList_lookup (h : List PVal) (fuel : ℕ) (l : List (String × ℕ)) (pd : PDict)
    (hr : readTreeList h fuel l = some pd) (k : String) (a : ℕ)
    (hl : dictLookup l k = some a) : pdLookup pd k = readTree h fuel a := by
  induction l generalizing pd with
  | nil => simp [dictLookup] at hl
  | cons hd tl ih =>
    cases hd with
    | mk k0 b =>
      simp only [readTreeList] at hr
      cases ht : readTree h fuel b with
      | none => rw [ht] at hr; exact Option.noConfusion hr
      | some t =>
        cases hrest : readTreeList h fuel tl with
        | none => rw [ht, hrest] at hr; exact Option.noConfusion hr
        | some pd0 =>
          rw [ht, hrest] at hr
          injection hr with hr
          subst hr
          simp only [dictLookup] at hl
          by_cases hk : k0 = k
          · rw [if_pos hk] at hl
            injection hl with hl
            subst hl
            simp [pdLookup, hk, ht]
          · rw [if_neg hk] at hl
            simp [pdLookup, hk, ih pd0 hrest hl]

/-- Allocating a dict entry list preserves its keys. -/
theorem allocDict_keys (h : List PVal) (pd : PDict) :
    (allocDict h pd).2.map Prod.fst = pdKeys pd := by
  match pd with
  | PDict.nil => simp [allocDict, pdKeys]
  | PDict.cons k t rest =>
    simp [allocDict, pdKeys, allocDict_keys (allocTree h t).1 rest]

/-- A key absent from the key list is unbound. -/
theorem dictLookup_none_of_not_mem {α : Type} (d : List (String × α)) (k : String)
    (h : k ∉ dictKeys d) : dictLookup d k = none := by
  cases hlk : dictLookup d k with
  | none => rfl
  | some v => exact absurd (dictLookup_some_mem_keys d k v hlk) h

/-- Every entry of a dict stored in a well-formed heap points inside it. -/
theorem heapWFb_entries (h : List PVal) (hwf : heapWFb h = true) (a : ℕ)
    (kvs : List (String × ℕ)) (hget : h[a]? = some (PVal.dictV kvs)) :
    ∀ kv ∈ kvs, kv.2 < h.length := by
  have ha : a < h.length := (List.getElem?_eq_some_iff.mp hget).1
  exact fun kv hkv => heapWFb_closedBelow h hwf a kvs ha hget kv hkv

/-- The `presets` readout only depends on the heap region the registry
lives in: any heap agreeing below `h.length` produces the same view. -/
theorem presetsView_agree (h g : List PVal) (rb rc fuel : ℕ) (hwf : heapWFb h = true)
    (hag : ∀ j, j < h.length → g[j]? = h[j]?) (hrb : rb < h.length) (hrc : rc < h.length) :
    presetsView g rb rc fuel = presetsView h rb rc fuel := by
  unfold presetsView
  rw [hag rb hrb, hag rc hrc]
  cases hb : h[rb]? with
  | none => rfl
  | some vb =>
    cases vb with
    | strV s => rfl
    | intV n => rfl
    | dictV db =>
      cases hc : h[rc]? with
      | none => rfl
      | some vc =>
        cases vc with
        | strV s => rfl
        | intV n => rfl
        | dictV dc =>
          have hentries : ∀ kv ∈ dictUpdate db dc, kv.2 < h.length := by
            intro kv hkv
            rcases dictUpdate_mem db dc kv hkv with hin | hin
            · exact heapWFb_entries h hwf rb db hb kv hin
            · exact heapWFb_entries h hwf rc dc hc kv hin
          have hrw := readTreeList_agree h g h.length (heapWFb_closedBelow h hwf) hag fuel
            (dictUpdate db dc) hentries
          simp [hrw]

/-- Setting an address in the freshly allocated region leaves the original
region of the heap unchanged. -/
theorem set_high_agree (h ext : List PVal) (a : ℕ) (v : PVal) (ha : h.length ≤ a) :
    ∀ j, j < h.length → ((h ++ ext).set a v)[j]? = h[j]? := by
  intro j hj
  rw [List.getElem?_set_ne (by omega)]
  exact List.getElem?_append_left hj

/-! ## Claims -/

/-- C1: for every backbone, `num_classes`, `dropout` and optional
preprocessor, the constructed classifier's forward graph takes the
backbone's pooled output, applies dropout to it, and then applies the dense
projection named "logits" with `num_classes` outputs whose kernel uses a
truncated-normal init scheme with standard deviation 0.02; the dropout step
precedes the dense projection. -/
theorem bertClassifier_graph_structure (backbone : Backbone) (num_classes : ℕ)
    (dropout : ℚ) (preprocessor : Option Preprocessor) (denseW : List (List ℚ))
    (denseB : List ℚ) (xla : Bool) :
    (mkBertClassifier backbone num_classes dropout preprocessor denseW denseB xla).graph
      = SymTensor.dense num_classes (InitScheme.truncatedNormal 0.02) "logits"
          (SymTensor.dropout dropout (SymTensor.backbonePooled SymTensor.input)) := rfl

/-- C2: for every valid constructor argument tuple and every batch size,
the constructed model's output shape has last dimension `num_classes`. -/
theorem bertClassifier_output_last_dim (backbone : Backbone) (num_classes : ℕ)
    (dropout : ℚ) (preprocessor : Option Preprocessor) (denseW : List (List ℚ))
    (denseB : List ℚ) (xla : Bool) (batch : ℕ) :
    (shapeOf backbone.hiddenDim backbone.seqLen batch
        (mkBertClassifier backbone num_classes dropout preprocessor
          denseW denseB xla).graph).getLast?
      = some num_classes := by
  simp [mkBertClassifier, buildGraph, shapeOf]

/-- C3: `get_config` returns the base task configuration extended with
`num_classes` and `dropout` holding the instance's values (all other keys
read through to the base config), and reconstructing from that config with
the same backbone and preprocessor yields a model whose `num_classes` and
`dropout` equal the original's. -/
theorem bertClassifier_config_roundtrip (c : BertClassifier) (base : Config)
    (denseW2 : List (List ℚ)) (denseB2 : List ℚ) (xla2 : Bool) :
    dictLookup (getConfig c base) "num_classes" = some (ConfigVal.natV c.num_classes) ∧
    dictLookup (getConfig c base) "dropout" = some (ConfigVal.ratV c.dropout) ∧
    (∀ k, k ≠ "num_classes" → k ≠ "dropout" →
      dictLookup (getConfig c base) k = dictLookup base k) ∧
    ∃ c2, fromConfig (getConfig c base) c.backbone c.preprocessor denseW2 denseB2 xla2
        = some c2 ∧
      c2.num_classes = c.num_classes ∧ c2.dropout = c.dropout := by
  have hnc : dictLookup (getConfig c base) "num_classes"
      = some (ConfigVal.natV c.num_classes) := by
    apply dictLookup_update_of_right
    · simp [dictKeys]
    · simp [dictLookup]
  have hdr : dictLookup (getConfig c base) "dropout"
      = some (ConfigVal.ratV c.dropout) := by
    apply dictLookup_update_of_right
    · simp [dictKeys]
    · simp [dictLookup]
  refine ⟨hnc, hdr, ?_, ?_⟩
  · intro k hk1 hk2
    apply dictLookup_update_of_not_mem
    have h1 : ¬("num_classes" = k) := fun h => hk1 h.symm
    have h2 : ¬("dropout" = k) := fun h => hk2 h.symm
    simp [dictLookup, h1, h2]
  · refine ⟨mkBertClassifier c.backbone c.num_classes c.dropout c.preprocessor
      denseW2 denseB2 xla2, ?_, rfl, rfl⟩
    unfold fromConfig
    rw [hnc, hdr]

/-- C4: construction unconditionally performs a default compilation: loss is
sparse categorical cross-entropy from logits, optimizer Adam at learning
rate 5e-5, metric sparse categorical accuracy; and a later `compile` call
replaces all of these before any training step consumes them. -/
theorem bertClassifier_default_compile (backbone : Backbone) (num_classes : ℕ)
    (dropout : ℚ) (preprocessor : Option Preprocessor) (denseW : List (List ℚ))
    (denseB : List ℚ) (xla : Bool) :
    (mkBertClassifier backbone num_classes dropout preprocessor
        denseW denseB xla).compileState
      = { loss := LossSpec.sparseCategoricalCrossentropy true
          optimizer := OptimizerSpec.adam (5 / 100000)
          metrics := MetricSpec.sparseCategoricalAccuracy
          jit_compile := xla } ∧
    ∀ (l : LossSpec) (o : OptimizerSpec) (m : MetricSpec) (j : Bool),
      (compileModel (mkBertClassifier backbone num_classes dropout preprocessor
          denseW denseB xla) l o m j).compileState
        = { loss := l, optimizer := o, metrics := m, jit_compile := j } :=
  ⟨rfl, fun _ _ _ _ => rfl⟩

/-- C6: `from_preset` on a name absent from the merged preset table fails
with a key error; it never falls back to a default configuration. -/
theorem fromPreset_unknown_key_error {α : Type} (table : List (String × α))
    (name : String) (h : name ∉ dictKeys table) :
    fromPreset table name = Except.error (PresetError.keyError name) := by
  unfold fromPreset
  rw [dictLookup_none_of_not_mem table name h]

theorem fromPreset_unknown_key_error_witness :
    "bert_tiny" ∉ dictKeys [("bert_base_en_uncased", 0), ("bert_base_en", 1)] ∧
    fromPreset [("bert_base_en_uncased", 0), ("bert_base_en", 1)] "bert_tiny"
      = Except.error (PresetError.keyError "bert_tiny") :=
  ⟨by decide, fromPreset_unknown_key_error
    [("bert_base_en_uncased", 0), ("bert_base_en", 1)] "bert_tiny" (by decide)⟩

/-- C7: the classifier constructor performs no validation of its own on
`num_classes` or `dropout`: whenever the two delegated Keras layer
constructors succeed, construction succeeds — for every value of
`num_classes` and `dropout`, including `num_classes < 1` and dropout
outside `[0, 1)`. -/
theorem bertClassifier_no_own_validation (mkDropoutLayer : ℚ → Except String Unit)
    (mkDenseLayer : ℕ → Except String Unit) (backbone : Backbone) (num_classes : ℕ)
    (dropout : ℚ) (preprocessor : Option Preprocessor) (denseW : List (List ℚ))
    (denseB : List ℚ) (xla : Bool)
    (hdrop : mkDropoutLayer dropout = Except.ok ())
    (hdense : mkDenseLayer num_classes = Except.ok ()) :
    mkBertClassifierChecked mkDropoutLayer mkDenseLayer backbone num_classes dropout
        preprocessor denseW denseB xla
      = Except.ok (mkBertClassifier backbone num_classes dropout preprocessor
          denseW denseB xla) := by
  unfold mkBertClassifierChecked
  rw [hdrop, hdense]
  rfl

theorem bertClassifier_no_own_validation_witness :
    ((fun _ : ℚ => (Except.ok () : Except String Unit)) 2 = Except.ok ()) ∧
    ((fun _ : ℕ => (Except.ok () : Except String Unit)) 0 = Except.ok ()) ∧
    mkBertClassifierChecked (fun _ => Except.ok ()) (fun _ => Except.ok ())
        ⟨4, 3, fun _ => []⟩ 0 2 none [] [] false
      = Except.ok (mkBertClassifier ⟨4, 3, fun _ => []⟩ 0 2 none [] [] false) :=
  ⟨rfl, rfl, bertClassifier_no_own_validation (fun _ => Except.ok ())
    (fun _ => Except.ok ()) ⟨4, 3, fun _ => []⟩ 0 2 none [] [] false rfl rfl⟩

/-- C8: saving a constructed classifier and restoring it through either
supported persistence format yields a model of the same class whose
predictions on any fixed batch coincide exactly with the original's
(exact equality of the rational-valued forward pass, hence within every
floating-point tolerance). -/
theorem bertClassifier_save_restore_predictions (fmt : SaveFormat) (backbone : Backbone)
    (num_classes : ℕ) (dropout : ℚ) (preprocessor : Option Preprocessor)
    (denseW : List (List ℚ)) (denseB : List ℚ) (xla : Bool) (base : Config)
    (batch : List EncodedInput) :
    ∃ c2, loadModel (saveModel fmt
        (mkBertClassifier backbone num_classes dropout preprocessor denseW denseB xla)
        base xla) = some c2 ∧
      predictBatch c2 batch
        = predictBatch (mkBertClassifier backbone num_classes dropout preprocessor
            denseW denseB xla) batch := by
  refine ⟨mkBertClassifier backbone num_classes dropout preprocessor denseW denseB xla,
    ?_, rfl⟩
  unfold loadModel saveModel
  simp only [if_pos rfl]
  have hnc : dictLookup (getConfig (mkBertClassifier backbone num_classes dropout
      preprocessor denseW denseB xla) base) "num_classes"
      = some (ConfigVal.natV num_classes) := by
    apply dictLookup_update_of_right
    · simp [dictKeys]
    · simp [dictLookup, mkBertClassifier]
  have hdr : dictLookup (getConfig (mkBertClassifier backbone num_classes dropout
      preprocessor denseW denseB xla) base) "dropout"
      = some (ConfigVal.ratV dropout) := by
    apply dictLookup_update_of_right
    · simp [dictKeys]
    · simp [dictLookup, mkBertClassifier]
  unfold fromConfig
  rw [hnc, hdr]
  simp [mkBertClassifier]

/-- C9: the `include_preprocessing` flag passed to the parent constructor is
`preprocessor is not None`: it is `false` exactly when the preprocessor
argument is `None` and `true` for every non-`None` preprocessor object. -/
theorem bertClassifier_include_preprocessing (backbone : Backbone) (num_classes : ℕ)
    (dropout : ℚ) (preprocessor : Option Preprocessor) (denseW : List (List ℚ))
    (denseB : List ℚ) (xla : Bool) :
    (mkBertClassifier backbone num_classes dropout preprocessor
        denseW denseB xla).includePreprocessing = preprocessor.isSome := rfl

/-- C10: in the merged table `{**backbone_presets, **classifier_presets}`
built by the `presets` property, a key present in both tables is mapped to
the classifier table's entry, and the deep copy it returns therefore holds
the (copied) classifier entry for that key. -/
theorem presets_merge_classifier_precedence (h : List PVal) (rb rc fuel : ℕ)
    (db dc : List (String × ℕ)) (pd : PDict) (k : String) (a : ℕ)
    (hrb : h[rb]? = some (PVal.dictV db)) (hrc : h[rc]? = some (PVal.dictV dc))
    (hnd : (dictKeys dc).Nodup) (hkdb : k ∈ dictKeys db) (hkdc : dictLookup dc k = some a)
    (hview : presetsView h rb rc fuel = some (PTree.dictT pd)) :
    dictLookup (dictUpdate db dc) k = some a ∧ pdLookup pd k = readTree h fuel a := by
  have hmerge := dictLookup_update_of_right db dc k a hnd hkdc
  refine ⟨hmerge, ?_⟩
  unfold presetsView at hview
  rw [hrb, hrc] at hview
  cases hrl : readTreeList h fuel (dictUpdate db dc) with
  | none => simp [hrl] at hview
  | some pd0 =>
    simp only [hrl] at hview
    have hpd : pd0 = pd := by
      simp at hview
      exact hview
    subst hpd
    exact readTreeList_lookup h fuel (dictUpdate db dc) pd0 hrl k a hmerge

/-- C5: the `presets` property returns a deep copy of the union of the two
preset tables: the copy's top-level key set is the union of the two tables'
key sets, and mutating any part of the returned copy (its root or any value
reachable from it) leaves the registry's readout — and hence the result of
every subsequent `presets` call — unchanged. -/
theorem presets_deepcopy_isolation (h : List PVal) (rb rc fuel : ℕ)
    (db dc : List (String × ℕ)) (h2 : List PVal) (c : ℕ)
    (hwf : heapWFb h = true)
    (hrb : h[rb]? = some (PVal.dictV db)) (hrc : h[rc]? = some (PVal.dictV dc))
    (hcall : presetsCall h rb rc fuel = some (h2, c)) :
    (∃ kvs, h2[c]? = some (PVal.dictV kvs) ∧
      ∀ k, k ∈ dictKeys kvs ↔ k ∈ dictKeys db ∨ k ∈ dictKeys dc) ∧
    (∀ a v, reach h2 c a →
      readTree (h2.set a v) fuel rb = readTree h fuel rb ∧
      readTree (h2.set a v) fuel rc = readTree h fuel rc ∧
      presetsView (h2.set a v) rb rc fuel = presetsView h rb rc fuel) := by
  have hrblt : rb < h.length := (List.getElem?_eq_some_iff.mp hrb).1
  have hrclt : rc < h.length := (List.getElem?_eq_some_iff.mp hrc).1
  unfold presetsCall at hcall
  cases hview : presetsView h rb rc fuel with
  | none => rw [hview] at hcall; exact Option.noConfusion hcall
  | some t =>
    rw [hview] at hcall
    injection hcall with hcall
    have hh2 : (allocTree h t).1 = h2 := congrArg Prod.fst hcall
    have hc : (allocTree h t).2 = c := congrArg Prod.snd hcall
    -- the view of two dict roots is always a dict tree
    have hpd : ∃ pd, t = PTree.dictT pd ∧
        readTreeList h fuel (dictUpdate db dc) = some pd := by
      unfold presetsView at hview
      rw [hrb, hrc] at hview
      cases hrl : readTreeList h fuel (dictUpdate db dc) with
      | none => simp [hrl] at hview
      | some pd0 =>
        simp only [hrl] at hview
        refine ⟨pd0, ?_, rfl⟩
        simp at hview
        exact hview.symm
    obtain ⟨pd, ht, hrl⟩ := hpd
    subst ht
    constructor
    · -- the copy's root is a dict whose key set is the union of both tables
      refine ⟨(allocDict h pd).2, ?_, ?_⟩
      · rw [← hh2, ← hc]
        simp only [allocTree]
        exact List.getElem?_concat_length _ _
      · intro k
        have hkeys : dictKeys (allocDict h pd).2 = dictKeys (dictUpdate db dc) := by
          unfold dictKeys
          rw [allocDict_keys h pd, readTreeList_keys h fuel (dictUpdate db dc) pd hrl]
        rw [hkeys]
        exact dictKeys_update_mem db dc k
    · intro a v hreach
      obtain ⟨ext, hext⟩ := allocTree_append h (PTree.dictT pd)
      rw [hh2] at hext
      have hcge : h.length ≤ c := by
        rw [← hc]
        exact (allocTree_root_ge h (PTree.dictT pd)).1
      have hrc0 : regionClosed h h.length := by
        intro a0 kvs0 ha0 hget0
        have := (List.getElem?_eq_some_iff.mp hget0).1
        omega
      have hrc2 : regionClosed h2 h.length := by
        rw [← hh2]
        exact allocTree_regionClosed h (PTree.dictT pd) h.length le_rfl hrc0
      have hage : h.length ≤ a := reach_ge h2 h.length c hcge hrc2 a hreach
      have hagr : ∀ j, j < h.length → (h2.set a v)[j]? = h[j]? := by
        rw [hext]
        exact set_high_agree h ext a v hage
      exact ⟨readTree_agree h (h2.set a v) h.length (heapWFb_closedBelow h hwf)
          hagr fuel rb hrblt,
        readTree_agree h (h2.set a v) h.length (heapWFb_closedBelow h hwf)
          hagr fuel rc hrclt,
        (presetsView_agree h (h2.set a v) rb rc fuel hwf hagr hrblt hrclt).trans hview⟩

theorem presets_merge_classifier_precedence_witness :
    ("shared" ∈ dictKeys [("shared", 0)]) ∧
    (dictLookup [("shared", 1)] "shared" = some 1) ∧
    (dictLookup (dictUpdate [("shared", 0)] [("shared", 1)]) "shared" = some 1 ∧
     pdLookup (PDict.cons "shared" (PTree.intT 2) PDict.nil) "shared"
       = readTree [PVal.intV 1, PVal.intV 2, PVal.dictV [("shared", 0)],
           PVal.dictV [("shared", 1)]] 2 1) :=
  ⟨by decide, by decide,
   presets_merge_classifier_precedence
     [PVal.intV 1, PVal.intV 2, PVal.dictV [("shared", 0)], PVal.dictV [("shared", 1)]]
     2 3 2 [("shared", 0)] [("shared", 1)]
     (PDict.cons "shared" (PTree.intT 2) PDict.nil) "shared" 1
     rfl rfl (by simp [dictKeys]) (by simp [dictKeys]) (by decide)
     (by simp [presetsView, readTree, readTreeList, dictUpdate, dictInsert])⟩

theorem presets_deepcopy_isolation_witness :
    heapWFb [PVal.intV 1, PVal.intV 2, PVal.dictV [("shared", 0)],
      PVal.dictV [("shared", 1)]] = true ∧
    presetsCall [PVal.intV 1, PVal.intV 2, PVal.dictV [("shared", 0)],
        PVal.dictV [("shared", 1)]] 2 3 2
      = some ([PVal.intV 1, PVal.intV 2, PVal.dictV [("shared", 0)],
          PVal.dictV [("shared", 1)], PVal.intV 2, PVal.dictV [("shared", 4)]], 5) ∧
    (readTree ([PVal.intV 1, PVal.intV 2, PVal.dictV [("shared", 0)],
        PVal.dictV [("shared", 1)], PVal.intV 2,
        PVal.dictV [("shared", 4)]].set 5 (PVal.intV 99)) 2 2
      = readTree [PVal.intV 1, PVal.intV 2, PVal.dictV [("shared", 0)],
          PVal.dictV [("shared", 1)]] 2 2 ∧
     readTree ([PVal.intV 1, PVal.intV 2, PVal.dictV [("shared", 0)],
        PVal.dictV [("shared", 1)], PVal.intV 2,
        PVal.dictV [("shared", 4)]].set 5 (PVal.intV 99)) 2 3
      = readTree [PVal.intV 1, PVal.intV 2, PVal.dictV [("shared", 0)],
          PVal.dictV [("shared", 1)]] 2 3 ∧
     presetsView ([PVal.intV 1, PVal.intV 2, PVal.dictV [("shared", 0)],
        PVal.dictV [("shared", 1)], PVal.intV 2,
        PVal.dictV [("shared", 4)]].set 5 (PVal.intV 99)) 2 3 2
      = presetsView [PVal.intV 1, PVal.intV 2, PVal.dictV [("shared", 0)],
          PVal.dictV [("shared", 1)]] 2 3 2) :=
  ⟨rfl,
   by simp [presetsCall, presetsView, readTree, readTreeList, dictUpdate, dictInsert,
     allocTree, allocDict],
   (presets_deepcopy_isolation
     [PVal.intV 1, PVal.intV 2, PVal.dictV [("shared", 0)], PVal.dictV [("shared", 1)]]
     2 3 2 [("shared", 0)] [("shared", 1)]
     [PVal.intV 1, PVal.intV 2, PVal.dictV [("shared", 0)], PVal.dictV [("shared", 1)],
       PVal.intV 2, PVal.dictV [("shared", 4)]] 5
     rfl rfl rfl
     (by simp [presetsCall, presetsView, readTree, readTreeList, dictUpdate, dictInsert,
       allocTree, allocDict])).2 5 (PVal.intV 99) reach.refl⟩
